import Mathlib

set_option maxHeartbeats 1000000

/-
Shallow embedding of the kantab repository's two core algorithms:

* the GraphQL type generator `generateType` from
  `src/backend/libs/graphql-generator.js`, and
* the fractional-ordering computations of the Vuex store actions
  `changeListPosition` and `changeCardPosition` from
  `src/unnamed/part_001` (lines 419-498).

Modelling conventions:
* JS numbers are modelled as `Rat` (positions are arbitrary, possibly
  fractional, numbers; `Math.ceil`/`Math.floor` become `Int.ceil`/`Int.floor`).
* A field value in the `settings.fields` map is either a plain string, an
  object, or `null`/`undefined`; property access on the latter raises a
  TypeError, modelled as `Except.error ()`.  All other modelled code is total.
* JS array `splice` index clamping and out-of-range indexing are reproduced
  exactly (`spliceStart`, `jsIndex`).
-/

-- ===================== Schema compiler (graphql-generator.js) ==============

/-- A value stored in an entity's `settings.fields` map.  `vstr` is the
plain-string shorthand (for example `description: "string"`), `vnull` stands
for `null`/`undefined`, and `vobj` is a descriptor object carrying the
attributes the generator reads: `graphqlType`, `type`, `properties`, `items`
and `required`. -/
inductive FieldVal where
  | vstr (s : String)
  | vnull
  | vobj (graphqlType ty : Option String) (properties items : Option FieldVal) (required : Bool)

deriving instance DecidableEq for Except

/-- JS property access `field.graphqlType` (undefined on a plain string). -/
def FieldVal.graphqlTypeAttr : FieldVal → Option String
  | .vobj g _ _ _ _ => g
  | _ => none

/-- JS property access `field.type` (undefined on a plain string). -/
def FieldVal.typeAttr : FieldVal → Option String
  | .vobj _ t _ _ _ => t
  | _ => none

/-- JS property access `field.properties`. -/
def FieldVal.propertiesAttr : FieldVal → Option FieldVal
  | .vobj _ _ p _ _ => p
  | _ => none

/-- JS property access `field.items`. -/
def FieldVal.itemsAttr : FieldVal → Option FieldVal
  | .vobj _ _ _ it _ => it
  | _ => none

/-- JS property access `field.required`, as a truthiness test. -/
def FieldVal.requiredAttr : FieldVal → Bool
  | .vobj _ _ _ _ r => r
  | _ => false

/-- JS truthiness of an optional field value (`undefined`, `null` and `""`
are falsy; any object and any non-empty string are truthy). -/
def jsTruthy : Option FieldVal → Bool
  | none => false
  | some (.vstr s) => !(s == "")
  | some .vnull => false
  | some (.vobj _ _ _ _ _) => true

/-- JS string-valued `a || b`: `b` when `a` is `undefined` or `""`. -/
def orStr : Option String → String → String
  | none, b => b
  | some a, b => if a == "" then b else a

/-- JS `type.slice(0, 1).toUpperCase() + type.slice(1)`. -/
def capitalizeJs (s : String) : String :=
  match s.data with
  | [] => ""
  | c :: cs => String.mk (c.toUpper :: cs)

/-- The base type name the generator computes for one field before array
wrapping and the required suffix:
`let type = field.graphqlType || field.type || "string"`, titlecasing for
`"string"`/`"boolean"`, and the `"number" -> "Int"` special case. -/
def resolveBaseType (f : FieldVal) : String :=
  let t0 := orStr f.graphqlTypeAttr (orStr f.typeAttr "string")
  let t1 := if t0 == "string" || t0 == "boolean" then capitalizeJs t0 else t0
  if t1 == "number" then "Int" else t1

/-- The body of the `forEach` callback of `generateType` for a non-null
field value: `none` when the field is skipped ("Skip not-well defined
fields"), otherwise the full emitted type text (array wrapper and `!`
suffix included). -/
def fieldEntryCore (f : FieldVal) : Option String :=
  let t2 := resolveBaseType f
  if t2 == "object" && !(jsTruthy f.propertiesAttr) then none
  else if t2 == "array" && !(jsTruthy f.itemsAttr) then none
  else
    let t3 := if f.typeAttr == some "array" then "[" ++ t2 ++ "]" else t2
    some (if f.requiredAttr then t3 ++ "!" else t3)

/-- One field of the map, JS-faithfully: property access on a `null` or
`undefined` field value throws a TypeError. -/
def fieldEntry : FieldVal → Except Unit (Option String)
  | .vnull => .error ()
  | .vstr s => .ok (fieldEntryCore (.vstr s))
  | .vobj g t p it r => .ok (fieldEntryCore (.vobj g t p it r))

/-- One output line: two-space indent, `name: Type`, and the separator
`idx < entries.length - 1 ? "," : ""`. -/
def renderLine (nm t : String) (comma : Bool) : String :=
  "  " ++ nm ++ ": " ++ t ++ (if comma then "," else "")

/-- The `entries.forEach(([name, field], idx) => ...)` loop of
`generateType`: `n` is `entries.length`, `idx` the running index. -/
def fieldLinesAux (n : Nat) : Nat → List (String × FieldVal) → Except Unit (List String)
  | _, [] => .ok []
  | idx, (nm, f) :: rest =>
      match fieldEntry f with
      | .error e => .error e
      | .ok o =>
          match fieldLinesAux n (idx + 1) rest with
          | .error e => .error e
          | .ok tail =>
              match o with
              | none => .ok tail
              | some t => .ok (renderLine nm t (decide (idx < n - 1)) :: tail)

/-- JS `Array.prototype.join(sep)`. -/
def jsJoin (sep : String) : List String → String
  | [] => ""
  | [x] => x
  | x :: y :: xs => x ++ sep ++ jsJoin sep (y :: xs)

/-- `generateType(name, schema)` from `src/backend/libs/graphql-generator.js`,
with the field map passed as an association list (JS object insertion
order). -/
def generateType (name : String) (fields : List (String × FieldVal)) : Except Unit String :=
  match fieldLinesAux fields.length 0 fields with
  | .error e => .error e
  | .ok lines => .ok (jsJoin "\n" (("type " ++ name ++ " \x7b") :: (lines ++ ["\x7d"])))

-- ===================== Ordering engine (part_001, lines 419-498) ===========

/-- A positioned sibling (list of a board, or card of a list).  Only the
`position` attribute is read by the position computation. -/
structure Ent where
  id : Nat
  position : Rat
deriving DecidableEq, Repr

/-- JS `Array.prototype.splice` start-index normalization:
negative indices count from the end (clamped at 0), positive ones are
clamped at the length. -/
def spliceStart (len : Nat) (i : Int) : Nat :=
  if i < 0 then ((len : Int) + i).toNat else min i.toNat len

/-- JS `arr.splice(i, 1)`: the array with one element removed (when in
range) together with the removed element (`arr.splice(i, 1)[0]`). -/
def spliceRemoveOne {α : Type} (l : List α) (i : Int) : List α × Option α :=
  let s := spliceStart l.length i
  (l.take s ++ l.drop (s + 1), l[s]?)

/-- JS `arr.splice(i, 0, x)`: insertion at the clamped index. -/
def spliceInsert {α : Type} (l : List α) (i : Int) (x : α) : List α :=
  let s := spliceStart l.length i
  l.take s ++ x :: l.drop s

/-- JS `arr[i]`: `undefined` for negative or out-of-range indices. -/
def jsIndex {α : Type} (l : List α) (i : Int) : Option α :=
  if i < 0 then none else l[i.toNat]?

/-- The `newPosition` computation of `changeListPosition` (lines 433-442).
There is no branch for both neighbours absent: in that case the code
evaluates `toPrev.position` on `undefined` and throws. -/
def listNewPosition : Option Ent → Option Ent → Except Unit Rat
  | none, none => .error ()
  | some p, none => .ok ((⌈p.position + 1⌉ : Int) : Rat)
  | none, some n => .ok ((⌊n.position - 1⌋ : Int) : Rat)
  | some p, some n => .ok ((n.position + p.position) / 2)

/-- The `newPosition` computation of `changeCardPosition` (lines 466-477),
which does have the `!toNext && !toPrev` branch returning 1. -/
def cardNewPosition : Option Ent → Option Ent → Rat
  | none, none => 1
  | some p, none => ((⌈p.position + 1⌉ : Int) : Rat)
  | none, some n => ((⌊n.position - 1⌋ : Int) : Rat)
  | some p, some n => (n.position + p.position) / 2

/-- `changeListPosition` (lines 419-454): remove at `fromIndex` when
non-null, insert the moved element at `toIndex` when non-null, resolve
`toPrev`/`toNext` with the raw `toIndex` (JS `null` coerces to 0 in
`toIndex - 1` / `toIndex + 1`), compute the new position, then read
`movedList.title` / assign `movedList.position` — which throws when
`movedList` is `undefined`.  The result is the new position of the moved
list, or `.error ()` for a thrown TypeError. -/
def changeListPosition (rows : List Ent) (fromIndex toIndex : Option Int) : Except Unit Rat :=
  let result0 : List (Option Ent) := rows.map some
  let step1 : List (Option Ent) × Option Ent :=
    match fromIndex with
    | some i => ((spliceRemoveOne result0 i).1, (spliceRemoveOne result0 i).2.join)
    | none => (result0, none)
  let result2 : List (Option Ent) :=
    match toIndex with
    | some i => spliceInsert step1.1 i step1.2
    | none => step1.1
  let ti : Int := match toIndex with | some i => i | none => 0
  let toPrev := (jsIndex result2 (ti - 1)).join
  let toNext := (jsIndex result2 (ti + 1)).join
  match listNewPosition toPrev toNext with
  | .error e => .error e
  | .ok q =>
      match step1.2 with
      | none => .error ()
      | some _ => .ok q

/-- `changeCardPosition` (lines 456-498): remove at `fromIndex` when
non-null (result discarded), and only when `toIndex` is non-null insert
`card`, resolve neighbours and compute the position (`.ok (some q)`); a
null `toIndex` takes the "first call at moving between lists" branch and
computes no position (`.ok none`). -/
def changeCardPosition (rows : List Ent) (card : Ent) (fromIndex toIndex : Option Int) :
    Except Unit (Option Rat) :=
  let result1 : List Ent :=
    match fromIndex with
    | some i => (spliceRemoveOne rows i).1
    | none => rows
  match toIndex with
  | some i =>
      let result2 := spliceInsert result1 i card
      let toPrev := jsIndex result2 (i - 1)
      let toNext := jsIndex result2 (i + 1)
      .ok (some (cardNewPosition toPrev toNext))
  | none => .ok none

-- ===================== Concrete evaluations (counterexamples) ==============

/-- C1 counterexample: siblings with positions 1, 2, 10; the no-op move
`fromIndex = toIndex = 1` of the middle entity (existing position 2) yields
the neighbours' midpoint 11/2, not the existing position, in both the list
and the card variants. -/
theorem c1_counterexample :
    changeListPosition [⟨0, 1⟩, ⟨1, 2⟩, ⟨2, 10⟩] (some 1) (some 1) = .ok (11 / 2 : Rat)
    ∧ changeCardPosition [⟨0, 1⟩, ⟨1, 2⟩, ⟨2, 10⟩] ⟨1, 2⟩ (some 1) (some 1)
        = .ok (some (11 / 2 : Rat))
    ∧ (11 / 2 : Rat) ≠ 2 := by
  refine ⟨?_, ?_, by norm_num⟩
  · simp [changeListPosition, spliceRemoveOne, spliceInsert, spliceStart, jsIndex,
      listNewPosition]
    norm_num
  · simp [changeCardPosition, spliceRemoveOne, spliceInsert, spliceStart, jsIndex,
      cardNewPosition]
    norm_num

/-- C2 counterexample: a field `{type: "array", items: {type: "number"}}`
is emitted as `[array]`; the per-field resolution rules applied to the
items descriptor give `Int`, so the emitted type is not `[InnerType]`
resolved recursively from the items descriptor. -/
theorem c2_counterexample :
    fieldEntry (.vobj none (some "array") none
        (some (.vobj none (some "number") none none false)) false)
      = .ok (some "[array]")
    ∧ resolveBaseType (.vobj none (some "number") none none false) = "Int"
    ∧ ("[array]" : String) ≠ "[" ++ "Int" ++ "]" := by
  decide

/-- C3 counterexample: a move into an empty sibling sequence (`toIndex` 0,
both neighbours absent) makes `changeListPosition` throw (there is no
both-absent branch in the list variant), instead of returning 1. -/
theorem c3_counterexample :
    changeListPosition [] none (some 0) = .error ()
    ∧ changeListPosition [] none (some 0) ≠ .ok (1 : Rat) := by
  decide

/-- C4 counterexample: `changeCardPosition` with a null `toIndex` completes
without error (no error is signalled), while `changeListPosition` with a
non-null but out-of-range `toIndex` (5 on two siblings) throws instead of
clamping. -/
theorem c4_counterexample :
    changeCardPosition [] ⟨0, 5⟩ none none = .ok none
    ∧ changeListPosition [⟨0, 1⟩, ⟨1, 2⟩] (some 0) (some 5) = .error () := by
  decide

/-- C5 counterexample: a field map containing a `null` descriptor makes
`generateType` throw a TypeError (the property access
`field.graphqlType` on `null`), so the whole build fails instead of the
field being omitted. -/
theorem c5_counterexample :
    generateType "Board" [("owner", .vnull)] = .error () := by
  decide

/-- C6 counterexample: a field with `type: "array"`, no `items`, but an
explicit override `graphqlType: "Strings"` IS emitted (as `[Strings]`):
the skip test checks the already-overridden type name, so the override
defeats the skip. -/
theorem c6_counterexample :
    generateType "Board" [("labels", .vobj (some "Strings") (some "array") none none false)]
      = .ok "type Board \x7b\n  labels: [Strings]\n\x7d" := by
  decide

/-- C7 counterexample: with field map `title` (required string) followed by
`labels` (array without items, skipped), the single emitted field line
keeps its trailing comma, because the separator is chosen by the index in
the input map, not among emitted lines. -/
theorem c7_counterexample :
    generateType "Board"
        [("title", .vobj none (some "string") none none true),
         ("labels", .vobj none (some "array") none none false)]
      = .ok "type Board \x7b\n  title: String!,\n\x7d"
    ∧ fieldEntry (.vobj none (some "array") none none false) = .ok none
    ∧ "type Board \x7b\n  title: String!,\n\x7d"
        = "type Board \x7b\n" ++ "  title: String!," ++ "\n\x7d" := by
  decide

-- ===================== Compiler: general theorems ==========================

/-- C10: a field whose map entry is a plain string (any string, for example
`description: "string"` or the bare string `"number"`) is emitted as
`name: String` with no required suffix: on a plain string both
`field.graphqlType` and `field.type` are `undefined`, so the type defaults
to `"string"` and is titlecased, and `field.required` is `undefined`. -/
theorem c10_plain_string_field (name nm s : String) :
    generateType name [(nm, .vstr s)]
      = .ok (jsJoin "\n" ["type " ++ name ++ " \x7b", "  " ++ nm ++ ": " ++ "String", "\x7d"])
    ∧ fieldEntry (.vstr s) = .ok (some "String")
    ∧ "String" ≠ "Int" := by
  refine ⟨?_, rfl, by decide⟩
  show (match fieldLinesAux 1 0 [(nm, .vstr s)] with
        | .error e => Except.error e
        | .ok lines => .ok (jsJoin "\n" (("type " ++ name ++ " \x7b") :: (lines ++ ["\x7d"]))))
      = _
  have h1 : fieldLinesAux 1 0 [(nm, .vstr s)]
      = .ok [renderLine nm "String" false] := rfl
  rw [h1]
  simp [renderLine, jsJoin, String.append_empty]

/-- C2 (amended): for a field with `kind == array` and a (truthy)
`itemsDescriptor`, the emitted type is `[T]` where `T` is resolved from the
field's OWN attributes (the override type name if truthy, else the literal
token `array`); the items descriptor is consulted only for presence, never
resolved recursively.  (Provided the field's own resolved token is not
`object` without `properties`, which would skip the field.) -/
theorem c2_array_wraps_own_type (g : Option String) (props items : Option FieldVal) (req : Bool)
    (hit : jsTruthy items = true)
    (hob : ¬(resolveBaseType (.vobj g (some "array") props items req) = "object"
             ∧ jsTruthy props = false)) :
    fieldEntry (.vobj g (some "array") props items req)
      = .ok (some (if req
          then ("[" ++ resolveBaseType (.vobj g (some "array") props items req) ++ "]") ++ "!"
          else "[" ++ resolveBaseType (.vobj g (some "array") props items req) ++ "]")) := by
  have hskip : ((resolveBaseType (.vobj g (some "array") props items req) == "object")
      && !(jsTruthy props)) = false := by
    rcases Bool.eq_false_or_eq_true (jsTruthy props) with hp | hp
    · simp [hp]
    · have hne : ¬ resolveBaseType (.vobj g (some "array") props items req) = "object" :=
        fun hc => hob ⟨hc, hp⟩
      simp [hne]
  simp only [fieldEntry, fieldEntryCore, FieldVal.itemsAttr, FieldVal.propertiesAttr,
    FieldVal.typeAttr, FieldVal.requiredAttr, hit, hskip]
  simp

/-- Witness for `c2_array_wraps_own_type` at the counterexample input of C2:
no override type name, items descriptor `{type: "number"}`. -/
theorem c2_array_wraps_own_type_witness :
    jsTruthy (some (.vobj none (some "number") none none false)) = true
    ∧ fieldEntry (.vobj none (some "array") none
          (some (.vobj none (some "number") none none false)) false)
      = .ok (some ("[" ++ resolveBaseType (.vobj none (some "array") none
          (some (.vobj none (some "number") none none false)) false) ++ "]")) := by
  refine ⟨by decide, ?_⟩
  have h := c2_array_wraps_own_type none none
    (some (.vobj none (some "number") none none false)) false (by decide) (by decide)
  simpa using h

/-- C6 (amended): a field with `kind == array`, no (truthy)
`itemsDescriptor`, and no truthy override type name is never emitted: the
whole field map entry produces no output line.  (With a truthy override
name the skip test sees the overridden name instead of `array` and the
field IS emitted, see the counterexample.) -/
theorem c6_array_without_items_skipped (name nm : String) (g : Option String)
    (props items : Option FieldVal) (req : Bool)
    (hg : g = none ∨ g = some "") (hit : jsTruthy items = false) :
    fieldEntry (.vobj g (some "array") props items req) = .ok none
    ∧ generateType name [(nm, .vobj g (some "array") props items req)]
      = .ok (jsJoin "\n" ["type " ++ name ++ " \x7b", "\x7d"]) := by
  have hbase : resolveBaseType (.vobj g (some "array") props items req) = "array" := by
    rcases hg with hg | hg <;>
      simp [hg, resolveBaseType, orStr, FieldVal.graphqlTypeAttr, FieldVal.typeAttr]
  have hentry : fieldEntry (.vobj g (some "array") props items req) = .ok none := by
    simp [fieldEntry, fieldEntryCore, hbase, FieldVal.itemsAttr, FieldVal.propertiesAttr,
      hit]
  refine ⟨hentry, ?_⟩
  show (match fieldLinesAux 1 0 [(nm, .vobj g (some "array") props items req)] with
        | .error e => Except.error e
        | .ok lines => .ok (jsJoin "\n" (("type " ++ name ++ " \x7b") :: (lines ++ ["\x7d"]))))
      = _
  have hlines : fieldLinesAux 1 0 [(nm, .vobj g (some "array") props items req)] = .ok [] := by
    simp [fieldLinesAux, hentry]
  rw [hlines]
  rfl

/-- Witness for `c6_array_without_items_skipped`: the `labels` field of the
boards service (`{type: "array"}`, no items, no override). -/
theorem c6_array_without_items_skipped_witness :
    fieldEntry (.vobj none (some "array") none none false) = .ok none
    ∧ generateType "Board" [("labels", .vobj none (some "array") none none false)]
      = .ok "type Board \x7b\n\x7d" := by
  have h := c6_array_without_items_skipped "Board" "labels" none none none false
    (Or.inl rfl) (by decide)
  exact ⟨h.1, by rw [h.2]; decide⟩

/-- A non-null field value never makes `fieldEntry` throw. -/
theorem fieldEntry_ok_of_ne_vnull (f : FieldVal) (h : f ≠ FieldVal.vnull) :
    ∃ o, fieldEntry f = .ok o := by
  cases f with
  | vnull => exact absurd rfl h
  | vstr s => exact ⟨_, rfl⟩
  | vobj g t p it r => exact ⟨_, rfl⟩

/-- C5 (amended): for every entity name and every field map whose values
are strings or descriptor objects (no `null`/`undefined` entries), the
generator terminates normally and never throws; malformed descriptors are
only skipped.  (A `null` field value makes the whole call throw, see the
counterexample.) -/
theorem c5_no_throw_without_null (name : String) (fields : List (String × FieldVal))
    (h : ∀ p ∈ fields, p.2 ≠ FieldVal.vnull) :
    ∃ s, generateType name fields = .ok s := by
  suffices h2 : ∀ n idx, ∃ ls, fieldLinesAux n idx fields = .ok ls by
    obtain ⟨ls, hls⟩ := h2 fields.length 0
    refine ⟨jsJoin "\n" (("type " ++ name ++ " \x7b") :: (ls ++ ["\x7d"])), ?_⟩
    show (match fieldLinesAux fields.length 0 fields with
          | .error e => Except.error e
          | .ok lines => .ok (jsJoin "\n" (("type " ++ name ++ " \x7b") :: (lines ++ ["\x7d"]))))
        = _
    rw [hls]
  induction fields with
  | nil => exact fun n idx => ⟨[], rfl⟩
  | cons hd tl ih =>
    intro n idx
    obtain ⟨nm, f⟩ := hd
    obtain ⟨o, ho⟩ := fieldEntry_ok_of_ne_vnull f (h (nm, f) (by simp))
    obtain ⟨ls, hls⟩ := ih (fun p hp => h p (List.mem_cons_of_mem _ hp)) n (idx + 1)
    cases o with
    | none => exact ⟨ls, by simp [fieldLinesAux, ho, hls]⟩
    | some t =>
      exact ⟨renderLine nm t (decide (idx < n - 1)) :: ls, by simp [fieldLinesAux, ho, hls]⟩

/-- Witness for `c5_no_throw_without_null`: the generator succeeds on a
small map with a plain-string field and a skipped array field. -/
theorem c5_no_throw_without_null_witness :
    (∀ p ∈ ([("description", FieldVal.vstr "string"),
             ("labels", FieldVal.vobj none (some "array") none none false)]
        : List (String × FieldVal)), p.2 ≠ FieldVal.vnull)
    ∧ ∃ s, generateType "Board"
        [("description", FieldVal.vstr "string"),
         ("labels", FieldVal.vobj none (some "array") none none false)] = .ok s := by
  refine ⟨?_, c5_no_throw_without_null "Board" _ ?_⟩ <;>
    · intro p hp
      rcases List.mem_cons.mp hp with h | h
      · rw [h]; intro hc; cases hc
      · rcases List.mem_cons.mp h with h2 | h2
        · rw [h2]; intro hc; cases hc
        · cases h2

/-- All-but-the-last elements get a trailing comma (the shape the spec
describes for the emitted field lines). -/
def withCommas : List String → List String
  | [] => []
  | [b] => [b]
  | b :: c :: rest => (b ++ ",") :: withCommas (c :: rest)

/-- Unfolding of `jsJoin` on a cons with a non-empty tail. -/
theorem jsJoin_cons (sep x : String) (xs : List String) (h : xs ≠ []) :
    jsJoin sep (x :: xs) = x ++ sep ++ jsJoin sep xs := by
  cases xs with
  | nil => exact absurd rfl h
  | cons y ys => rfl

/-- Joining comma-suffixed lines with newlines is the same as joining the
bare lines with `",\n"`. -/
theorem jsJoin_withCommas (bs : List String) (h : bs ≠ []) :
    jsJoin "\n" (withCommas bs ++ ["\x7d"]) = jsJoin ",\n" bs ++ "\n" ++ "\x7d" := by
  induction bs with
  | nil => exact absurd rfl h
  | cons b rest ih =>
    cases rest with
    | nil => rfl
    | cons c rest2 =>
      have hne : (c :: rest2 : List String) ≠ [] := by simp
      have hstep : withCommas (b :: c :: rest2) ++ ["\x7d"]
          = (b ++ ",") :: (withCommas (c :: rest2) ++ ["\x7d"]) := rfl
      rw [hstep, jsJoin_cons _ _ _ (by simp [withCommas]), ih hne,
        jsJoin_cons ",\n" b (c :: rest2) hne]
      rw [String.append_assoc b "," "\n"]
      have hlit : ("," : String) ++ "\n" = ",\n" := rfl
      rw [hlit]
      simp [String.append_assoc]

/-- One-step unfolding of the loop on a cons cell. -/
theorem fieldLinesAux_cons (n idx : Nat) (nm : String) (f : FieldVal)
    (rest : List (String × FieldVal)) :
    fieldLinesAux n idx ((nm, f) :: rest)
      = match fieldEntry f with
        | .error e => .error e
        | .ok o =>
            match fieldLinesAux n (idx + 1) rest with
            | .error e => .error e
            | .ok tail =>
                match o with
                | none => .ok tail
                | some t => .ok (renderLine nm t (decide (idx < n - 1)) :: tail) := rfl

/-- When every entry of the (remaining) field map is emitted, the loop
produces exactly one line per entry, and the trailing comma goes to every
line whose map index is below `n - 1`; with the indices lined up this is
`withCommas` of the bare line bodies. -/
theorem fieldLinesAux_all_emitted :
    ∀ (fields : List (String × FieldVal)) (ts : List String) (n idx : Nat),
      idx + fields.length = n →
      List.Forall₂ (fun pr t => fieldEntry pr.2 = .ok (some t)) fields ts →
      fieldLinesAux n idx fields
        = .ok (withCommas (List.zipWith (fun pr t => "  " ++ pr.1 ++ ": " ++ t) fields ts)) := by
  intro fields
  induction fields with
  | nil => intro ts n idx hn h; cases h; rfl
  | cons hd tl ih =>
    intro ts n idx hn h
    cases h with
    | cons hhd htl =>
      rename_i t0 ts2
      obtain ⟨nm, f⟩ := hd
      cases htl with
      | nil =>
        have hflag : decide (idx < n - 1) = false := by
          simp only [decide_eq_false_iff_not]
          simp at hn
          omega
        simp [fieldLinesAux, hhd, hflag, renderLine, withCommas, String.append_empty]
      | cons hhd2 htl2 =>
        rename_i pr2 t2 tl2 ts3
        have hrec := ih (t2 :: ts3) n (idx + 1) (by simp at hn ⊢; omega)
          (List.Forall₂.cons hhd2 htl2)
        have hflag : decide (idx < n - 1) = true := by
          simp only [decide_eq_true_eq]
          simp at hn
          omega
        rw [fieldLinesAux_cons, hhd, hrec, hflag]
        simp [renderLine, withCommas, List.zipWith]

/-- C7 (amended): a trailing comma is attached to a field line exactly when
the field is not the LAST ENTRY OF THE INPUT MAP (skipped entries
included in the count).  When no field of the map is skipped this gives
the claimed shape — every emitted line comma-terminated except the last —
equivalently, the output is the bare field lines joined with `",\n"`.
When trailing entries are skipped, the last emitted line keeps its comma
(see the counterexample). -/
theorem c7_comma_except_last_when_none_skipped (name : String)
    (fields : List (String × FieldVal)) (ts : List String) (hne : fields ≠ [])
    (h : List.Forall₂ (fun pr t => fieldEntry pr.2 = .ok (some t)) fields ts) :
    generateType name fields
      = .ok (("type " ++ name ++ " \x7b") ++ "\n"
          ++ (jsJoin ",\n" (List.zipWith (fun pr t => "  " ++ pr.1 ++ ": " ++ t) fields ts)
              ++ "\n" ++ "\x7d")) := by
  have hlines := fieldLinesAux_all_emitted fields ts fields.length 0 (by omega) h
  have hbs : List.zipWith (fun pr t => "  " ++ pr.1 ++ ": " ++ t) fields ts ≠ [] := by
    cases fields with
    | nil => exact absurd rfl hne
    | cons hd tl =>
      cases h with
      | cons hhd htl => simp [List.zipWith]
  have hwc : withCommas (List.zipWith (fun pr t => "  " ++ pr.1 ++ ": " ++ t) fields ts)
      ++ ["\x7d"] ≠ [] := by simp
  show (match fieldLinesAux fields.length 0 fields with
        | .error e => Except.error e
        | .ok lines => .ok (jsJoin "\n" (("type " ++ name ++ " \x7b") :: (lines ++ ["\x7d"]))))
      = _
  rw [hlines]
  show Except.ok (jsJoin "\n" (("type " ++ name ++ " \x7b")
      :: (withCommas (List.zipWith (fun pr t => "  " ++ pr.1 ++ ": " ++ t) fields ts)
          ++ ["\x7d"]))) = _
  rw [jsJoin_cons _ _ _ hwc, jsJoin_withCommas _ hbs]

/-- Witness for `c7_comma_except_last_when_none_skipped`: a two-field map
with nothing skipped emits `title: String!,` then `position: Int` with no
trailing comma on the last line. -/
theorem c7_comma_except_last_when_none_skipped_witness :
    generateType "Board"
        [("title", .vobj none (some "string") none none true),
         ("position", .vobj none (some "number") none none false)]
      = .ok "type Board \x7b\n  title: String!,\n  position: Int\n\x7d" := by
  have h := c7_comma_except_last_when_none_skipped "Board"
    [("title", .vobj none (some "string") none none true),
     ("position", .vobj none (some "number") none none false)]
    ["String!", "Int"] (by simp)
    (List.Forall₂.cons (by decide) (List.Forall₂.cons (by decide) List.Forall₂.nil))
  rw [h]
  decide

-- ===================== Ordering engine: general lemmas =====================

/-- A non-negative in-range start index is not clamped. -/
theorem spliceStart_coe (len k : Nat) (h : k ≤ len) : spliceStart len (k : Int) = k := by
  unfold spliceStart
  rw [if_neg (by omega)]
  simp [Int.toNat_natCast, Nat.min_eq_left h]

/-- The normalized splice start index never exceeds the length. -/
theorem spliceStart_le_len (len : Nat) (i : Int) : spliceStart len i ≤ len := by
  unfold spliceStart
  split
  · omega
  · exact Nat.min_le_right _ _

/-- Inserting at the boundary between `xs` and `ys`. -/
theorem spliceInsert_at {α : Type} (xs ys : List α) (v : α) :
    spliceInsert (xs ++ ys) (xs.length : Int) v = xs ++ v :: ys := by
  unfold spliceInsert
  rw [spliceStart_coe _ _ (by simp)]
  show (xs ++ ys).take xs.length ++ v :: (xs ++ ys).drop xs.length = xs ++ v :: ys
  rw [List.take_left, List.drop_left]

/-- Removing the element sitting between `xs` and `ys`. -/
theorem spliceRemoveOne_at {α : Type} (xs ys : List α) (v : α) :
    spliceRemoveOne (xs ++ v :: ys) (xs.length : Int) = (xs ++ ys, some v) := by
  unfold spliceRemoveOne
  rw [spliceStart_coe _ _ (by simp)]
  have h1 : (xs ++ v :: ys).take xs.length = xs := List.take_left xs (v :: ys)
  have h2 : (xs ++ v :: ys).drop (xs.length + 1) = ys := by
    rw [show xs ++ v :: ys = (xs ++ [v]) ++ ys by simp,
      show xs.length + 1 = (xs ++ [v]).length by simp]
    exact List.drop_left _ _
  have h3 : (xs ++ v :: ys)[xs.length]? = some v := by
    rw [List.getElem?_append_right (le_refl _)]
    simp
  show ((xs ++ v :: ys).take xs.length ++ (xs ++ v :: ys).drop (xs.length + 1),
      (xs ++ v :: ys)[xs.length]?) = (xs ++ ys, some v)
  rw [h1, h2, h3]

/-- Indexing the element sitting between `xs` and `ys`. -/
theorem jsIndex_at {α : Type} (xs ys : List α) (v : α) :
    jsIndex (xs ++ v :: ys) (xs.length : Int) = some v := by
  unfold jsIndex
  rw [if_neg (by omega), Int.toNat_natCast]
  rw [List.getElem?_append_right (le_refl _)]
  simp

/-- A negative index reads `undefined`. -/
theorem jsIndex_neg {α : Type} (l : List α) (i : Int) (h : i < 0) : jsIndex l i = none := by
  unfold jsIndex
  rw [if_pos h]

/-- An index at or past the length reads `undefined`. -/
theorem jsIndex_past {α : Type} (l : List α) (i : Int) (h : (l.length : Int) ≤ i) :
    jsIndex l i = none := by
  unfold jsIndex
  rw [if_neg (by omega)]
  exact List.getElem?_eq_none (by omega)

/-- Definitional unfolding of a cross-container card insert (`fromIndex`
null, `toIndex` non-null). -/
theorem changeCardPosition_none_some (rows : List Ent) (c : Ent) (i : Int) :
    changeCardPosition rows c none (some i)
      = .ok (some (cardNewPosition (jsIndex (spliceInsert rows i c) (i - 1))
                                   (jsIndex (spliceInsert rows i c) (i + 1)))) := rfl

/-- Inserting a card strictly between two adjacent siblings `y` and `x`
resolves exactly those as neighbours and yields their midpoint. -/
theorem card_insert_mid (p q : List Ent) (y x c : Ent) :
    changeCardPosition (p ++ y :: x :: q) c none (some ((p.length : Int) + 1))
      = .ok (some ((x.position + y.position) / 2)) := by
  have h2 : spliceInsert (p ++ y :: x :: q) ((p.length : Int) + 1) c
      = (p ++ [y]) ++ c :: (x :: q) := by
    rw [show p ++ y :: x :: q = (p ++ [y]) ++ (x :: q) by simp,
      show (p.length : Int) + 1 = ((p ++ [y]).length : Int) by simp]
    exact spliceInsert_at _ _ _
  have h3 : jsIndex ((p ++ [y]) ++ c :: (x :: q)) ((p.length : Int) + 1 - 1) = some y := by
    rw [show (p.length : Int) + 1 - 1 = (p.length : Int) by ring,
      show (p ++ [y]) ++ c :: (x :: q) = p ++ y :: (c :: x :: q) by simp]
    exact jsIndex_at _ _ _
  have h4 : jsIndex ((p ++ [y]) ++ c :: (x :: q)) ((p.length : Int) + 1 + 1) = some x := by
    rw [show (p.length : Int) + 1 + 1 = ((p ++ [y, c]).length : Int) by simp; omega,
      show (p ++ [y]) ++ c :: (x :: q) = (p ++ [y, c]) ++ (x :: q) by simp]
    exact jsIndex_at _ _ _
  rw [changeCardPosition_none_some, h2, h3, h4]
  rfl

/-- Inserting a card at the head resolves only the next neighbour and
yields `Math.floor(next.position - 1)`. -/
theorem card_insert_head (x c : Ent) (q : List Ent) :
    changeCardPosition (x :: q) c none (some 0)
      = .ok (some ((⌊x.position - 1⌋ : Int) : Rat)) := by
  have h2 : spliceInsert (x :: q) (0 : Int) c = c :: x :: q := by
    have h := spliceInsert_at ([] : List Ent) (x :: q) c
    simpa using h
  have h3 : jsIndex (c :: x :: q) ((0 : Int) - 1) = none := jsIndex_neg _ _ (by omega)
  have h4 : jsIndex (c :: x :: q) ((0 : Int) + 1) = some x := by
    have h := jsIndex_at [c] q x
    simpa using h
  rw [changeCardPosition_none_some, h2, h3, h4]
  rfl

/-- Inserting a card at the tail resolves only the previous neighbour and
yields `Math.ceil(prev.position + 1)`. -/
theorem card_insert_tail (p : List Ent) (y c : Ent) :
    changeCardPosition (p ++ [y]) c none (some ((p.length : Int) + 1))
      = .ok (some ((⌈y.position + 1⌉ : Int) : Rat)) := by
  have h2 : spliceInsert (p ++ [y]) ((p.length : Int) + 1) c = (p ++ [y]) ++ [c] := by
    rw [show (p.length : Int) + 1 = ((p ++ [y]).length : Int) by simp]
    have h := spliceInsert_at (p ++ [y]) ([] : List Ent) c
    simpa using h
  have h3 : jsIndex ((p ++ [y]) ++ [c]) ((p.length : Int) + 1 - 1) = some y := by
    rw [show (p.length : Int) + 1 - 1 = (p.length : Int) by ring,
      show (p ++ [y]) ++ [c] = p ++ y :: [c] by simp]
    exact jsIndex_at _ _ _
  have h4 : jsIndex ((p ++ [y]) ++ [c]) ((p.length : Int) + 1 + 1) = none := by
    apply jsIndex_past
    simp
    omega
  rw [changeCardPosition_none_some, h2, h3, h4]
  rfl

/-- C8: for a strictly ascending sibling sequence and a valid insert
target, the computed position is strictly between the resolved neighbours
when both exist, strictly above the previous neighbour at the tail, and
strictly below the next neighbour at the head; moreover the list-move
computation agrees with the card-move computation whenever at least one
neighbour exists. -/
theorem c8_monotonic (p q : List Ent) (y x c : Ent)
    (hsort : (p ++ y :: x :: q).Pairwise (fun u v => u.position < v.position)) :
    (∃ r, changeCardPosition (p ++ y :: x :: q) c none (some ((p.length : Int) + 1))
        = .ok (some r) ∧ y.position < r ∧ r < x.position)
    ∧ (∃ r, changeCardPosition (x :: q) c none (some 0)
        = .ok (some r) ∧ r < x.position)
    ∧ (∃ r, changeCardPosition (p ++ [y]) c none (some ((p.length : Int) + 1))
        = .ok (some r) ∧ y.position < r)
    ∧ listNewPosition (some y) (some x) = .ok (cardNewPosition (some y) (some x))
    ∧ listNewPosition (some y) none = .ok (cardNewPosition (some y) none)
    ∧ listNewPosition none (some x) = .ok (cardNewPosition none (some x)) := by
  have hyx : y.position < x.position := by
    have h1 : (y :: x :: q).Pairwise (fun u v => u.position < v.position) :=
      (List.pairwise_append.mp hsort).2.1
    exact (List.pairwise_cons.mp h1).1 x (by simp)
  refine ⟨⟨(x.position + y.position) / 2, card_insert_mid p q y x c, by linarith, by linarith⟩,
    ⟨((⌊x.position - 1⌋ : Int) : Rat), card_insert_head x c q, ?_⟩,
    ⟨((⌈y.position + 1⌉ : Int) : Rat), card_insert_tail p y c, ?_⟩, rfl, rfl, rfl⟩
  · have h := Int.floor_le (x.position - 1)
    linarith
  · have h := Int.le_ceil (y.position + 1)
    linarith

/-- Witness for `c8_monotonic` on siblings with positions 1 and 2 and a
moved card inserted between them: the computed position 3/2 is strictly
between the neighbours. -/
theorem c8_monotonic_witness :
    ∃ r, changeCardPosition [⟨0, 1⟩, ⟨1, 2⟩] ⟨2, 9⟩ none (some 1)
      = .ok (some r) ∧ (1 : Rat) < r ∧ r < 2 := by
  have h := (c8_monotonic [] [] ⟨0, 1⟩ ⟨1, 2⟩ ⟨2, 9⟩ (by simp)).1
  obtain ⟨r, hr, h1, h2⟩ := h
  exact ⟨r, by simpa using hr, h1, h2⟩

/-- C9: a tail insert (only the next neighbour absent) computes
`Math.ceil(prev.position + 1)`, which equals `ceil(prev.position) + 1`, and
a head insert (only the previous neighbour absent) computes
`Math.floor(next.position - 1) = floor(next.position) - 1`, for arbitrary
(also fractional) neighbour positions — in the card variant at the level of
the whole move, and in both variants at the level of the branch formulas. -/
theorem c9_extremity (p q : List Ent) (y x c : Ent) :
    changeCardPosition (p ++ [y]) c none (some ((p.length : Int) + 1))
      = .ok (some ((⌈y.position⌉ + 1 : Int) : Rat))
    ∧ changeCardPosition (x :: q) c none (some 0)
      = .ok (some ((⌊x.position⌋ - 1 : Int) : Rat))
    ∧ listNewPosition (some y) none = .ok ((⌈y.position⌉ + 1 : Int) : Rat)
    ∧ listNewPosition none (some x) = .ok ((⌊x.position⌋ - 1 : Int) : Rat)
    ∧ cardNewPosition (some y) none = ((⌈y.position⌉ + 1 : Int) : Rat)
    ∧ cardNewPosition none (some x) = ((⌊x.position⌋ - 1 : Int) : Rat) := by
  have hc : ⌈y.position + 1⌉ = ⌈y.position⌉ + 1 := by
    rw [show y.position + 1 = y.position + (1 : Int) by push_cast; ring]
    exact Int.ceil_add_int _ _
  have hf : ⌊x.position - 1⌋ = ⌊x.position⌋ - 1 := by
    rw [show x.position - 1 = x.position + (-1 : Int) by push_cast; ring]
    rw [Int.floor_add_int]
    ring
  refine ⟨?_, ?_, ?_, ?_, ?_, ?_⟩
  · rw [card_insert_tail, hc]
  · rw [card_insert_head, hf]
  · show Except.ok ((⌈y.position + 1⌉ : Int) : Rat) = _
    rw [hc]
  · show Except.ok ((⌊x.position - 1⌋ : Int) : Rat) = _
    rw [hf]
  · show ((⌈y.position + 1⌉ : Int) : Rat) = _
    rw [hc]
  · show ((⌊x.position - 1⌋ : Int) : Rat) = _
    rw [hf]

/-- Flattening a doubly-wrapped option. -/
theorem option_join_some {α : Type} (x : Option α) : (some x).join = x := rfl

/-- Flattening an absent option. -/
theorem option_join_none {α : Type} : (none : Option (Option α)).join = none := rfl

/-- Definitional unfolding of a within-container list move
(`fromIndex` and `toIndex` both non-null). -/
theorem changeListPosition_some_some (rows : List Ent) (j i : Int) :
    changeListPosition rows (some j) (some i)
      = (match listNewPosition
            ((jsIndex (spliceInsert (spliceRemoveOne (rows.map some) j).1 i
                ((spliceRemoveOne (rows.map some) j).2.join)) (i - 1)).join)
            ((jsIndex (spliceInsert (spliceRemoveOne (rows.map some) j).1 i
                ((spliceRemoveOne (rows.map some) j).2.join)) (i + 1)).join) with
        | .error e => Except.error e
        | .ok q =>
            match (spliceRemoveOne (rows.map some) j).2.join with
            | none => Except.error ()
            | some _ => Except.ok q) := rfl

/-- Definitional unfolding of a within-container card move
(`fromIndex` and `toIndex` both non-null). -/
theorem changeCardPosition_some_some (rows : List Ent) (c : Ent) (j i : Int) :
    changeCardPosition rows c (some j) (some i)
      = .ok (some (cardNewPosition
          (jsIndex (spliceInsert (spliceRemoveOne rows j).1 i c) (i - 1))
          (jsIndex (spliceInsert (spliceRemoveOne rows j).1 i c) (i + 1)))) := rfl

/-- C1 (amended): a no-op interior move (`fromIndex = toIndex`, both
neighbours present) removes and re-inserts the moved entity at the same
index, so the resolved neighbours are the entity's ORIGINAL neighbours and
the computed position is their midpoint `(next + prev) / 2` — the entity's
existing position is reproduced only when it already equals that
midpoint. -/
theorem c1_noop_midpoint (p q : List Ent) (a m b : Ent) :
    changeListPosition (p ++ a :: m :: b :: q) (some ((p.length : Int) + 1))
        (some ((p.length : Int) + 1))
      = .ok ((b.position + a.position) / 2)
    ∧ changeCardPosition (p ++ a :: m :: b :: q) m (some ((p.length : Int) + 1))
        (some ((p.length : Int) + 1))
      = .ok (some ((b.position + a.position) / 2)) := by
  constructor
  · have hrm : spliceRemoveOne ((p ++ a :: m :: b :: q).map some) ((p.length : Int) + 1)
        = ((p.map some ++ [some a]) ++ (some b :: q.map some), some (some m)) := by
      rw [show (p ++ a :: m :: b :: q).map some
          = (p.map some ++ [some a]) ++ some m :: (some b :: q.map some) by simp,
        show (p.length : Int) + 1 = ((p.map some ++ [some a]).length : Int) by simp]
      exact spliceRemoveOne_at _ _ _
    have hins : spliceInsert ((p.map some ++ [some a]) ++ (some b :: q.map some))
        ((p.length : Int) + 1) (some m)
        = (p.map some ++ [some a]) ++ some m :: (some b :: q.map some) := by
      rw [show (p.length : Int) + 1 = ((p.map some ++ [some a]).length : Int) by simp]
      exact spliceInsert_at _ _ _
    have h3 : jsIndex ((p.map some ++ [some a]) ++ some m :: (some b :: q.map some))
        ((p.length : Int) + 1 - 1) = some (some a) := by
      rw [show (p.length : Int) + 1 - 1 = ((p.map some).length : Int) by simp,
        show (p.map some ++ [some a]) ++ some m :: (some b :: q.map some)
          = p.map some ++ some a :: (some m :: some b :: q.map some) by simp]
      exact jsIndex_at _ _ _
    have h4 : jsIndex ((p.map some ++ [some a]) ++ some m :: (some b :: q.map some))
        ((p.length : Int) + 1 + 1) = some (some b) := by
      rw [show (p.length : Int) + 1 + 1 = ((p.map some ++ [some a, some m]).length : Int)
          by simp; omega,
        show (p.map some ++ [some a]) ++ some m :: (some b :: q.map some)
          = (p.map some ++ [some a, some m]) ++ (some b :: q.map some) by simp]
      exact jsIndex_at _ _ _
    rw [changeListPosition_some_some]
    simp only [hrm, option_join_some, hins, h3, h4, listNewPosition]
  · have hrm : spliceRemoveOne (p ++ a :: m :: b :: q) ((p.length : Int) + 1)
        = ((p ++ [a]) ++ (b :: q), some m) := by
      rw [show p ++ a :: m :: b :: q = (p ++ [a]) ++ m :: (b :: q) by simp,
        show (p.length : Int) + 1 = ((p ++ [a]).length : Int) by simp]
      exact spliceRemoveOne_at _ _ _
    have hins : spliceInsert ((p ++ [a]) ++ (b :: q)) ((p.length : Int) + 1) m
        = (p ++ [a]) ++ m :: (b :: q) := by
      rw [show (p.length : Int) + 1 = ((p ++ [a]).length : Int) by simp]
      exact spliceInsert_at _ _ _
    have h3 : jsIndex ((p ++ [a]) ++ m :: (b :: q)) ((p.length : Int) + 1 - 1)
        = some a := by
      rw [show (p.length : Int) + 1 - 1 = (p.length : Int) by ring,
        show (p ++ [a]) ++ m :: (b :: q) = p ++ a :: (m :: b :: q) by simp]
      exact jsIndex_at _ _ _
    have h4 : jsIndex ((p ++ [a]) ++ m :: (b :: q)) ((p.length : Int) + 1 + 1)
        = some b := by
      rw [show (p.length : Int) + 1 + 1 = ((p ++ [a, m]).length : Int) by simp; omega,
        show (p ++ [a]) ++ m :: (b :: q) = (p ++ [a, m]) ++ (b :: q) by simp]
      exact jsIndex_at _ _ _
    rw [changeCardPosition_some_some]
    simp only [hrm, hins, h3, h4, cardNewPosition]

/-- Removing from an empty array removes nothing and returns `undefined`. -/
theorem spliceRemoveOne_nil {α : Type} (j : Int) :
    spliceRemoveOne ([] : List α) j = ([], none) := by
  unfold spliceRemoveOne
  simp

/-- Inserting into an empty array yields the singleton, for every index. -/
theorem spliceInsert_nil {α : Type} (i : Int) (v : α) :
    spliceInsert ([] : List α) i v = [v] := by
  unfold spliceInsert
  simp

/-- In the list variant, after inserting into an empty board the only
element of the working array is `undefined` (the moved list could not be
found), so every neighbour lookup flattens to `undefined`. -/
theorem jsIndex_singleton_none_join (j : Int) :
    ((jsIndex ([none] : List (Option Ent)) j).join) = none := by
  by_cases h : j < 0
  · rw [jsIndex_neg _ _ h]
    rfl
  · unfold jsIndex
    rw [if_neg h]
    rcases Nat.eq_zero_or_pos j.toNat with h0 | h0
    · rw [h0]
      rfl
    · rw [List.getElem?_eq_none (by simp; omega)]
      rfl

/-- Definitional unfolding of a cross-container list arrival
(`fromIndex` null, `toIndex` non-null): the moved list is `undefined`, so
after the position computation the `movedList.title` / `movedList.position`
accesses throw. -/
theorem changeListPosition_none_some (rows : List Ent) (i : Int) :
    changeListPosition rows none (some i)
      = (match listNewPosition ((jsIndex (spliceInsert (rows.map some) i none) (i - 1)).join)
            ((jsIndex (spliceInsert (rows.map some) i none) (i + 1)).join) with
        | .error e => Except.error e
        | .ok _ => Except.error ()) := rfl

/-- C3 (amended): a move targeting an empty sibling sequence with both
neighbours absent yields position 1 in the CARD variant (which has the
`!toNext && !toPrev` branch), but the LIST variant throws a TypeError for
every move into an empty sequence — it has no such branch and reads
`.position` of `undefined`. -/
theorem c3_empty_container :
    (∀ (c : Ent) (fi : Option Int) (i : Int), (i = 0 ∨ 2 ≤ i ∨ i ≤ -2) →
      changeCardPosition [] c fi (some i) = .ok (some 1))
    ∧ (∀ (fi : Option Int) (i : Int), changeListPosition [] fi (some i) = .error ()) := by
  constructor
  · intro c fi i hi
    have hprev : jsIndex ([c] : List Ent) (i - 1) = none := by
      rcases hi with h | h | h
      · exact jsIndex_neg _ _ (by omega)
      · exact jsIndex_past _ _ (by simp; omega)
      · exact jsIndex_neg _ _ (by omega)
    have hnext : jsIndex ([c] : List Ent) (i + 1) = none := by
      rcases hi with h | h | h
      · exact jsIndex_past _ _ (by simp; omega)
      · exact jsIndex_past _ _ (by simp; omega)
      · exact jsIndex_neg _ _ (by omega)
    cases fi with
    | none =>
      rw [changeCardPosition_none_some, spliceInsert_nil, hprev, hnext]
      rfl
    | some j =>
      rw [changeCardPosition_some_some, spliceRemoveOne_nil]
      show Except.ok (some (cardNewPosition (jsIndex (spliceInsert ([] : List Ent) i c) (i - 1))
          (jsIndex (spliceInsert ([] : List Ent) i c) (i + 1)))) = _
      rw [spliceInsert_nil, hprev, hnext]
      rfl
  · intro fi i
    cases fi with
    | none =>
      rw [changeListPosition_none_some]
      show (match listNewPosition ((jsIndex (spliceInsert ([] : List (Option Ent)) i none)
              (i - 1)).join)
            ((jsIndex (spliceInsert ([] : List (Option Ent)) i none) (i + 1)).join) with
          | .error e => Except.error e
          | .ok _ => Except.error ()) = _
      rw [spliceInsert_nil, jsIndex_singleton_none_join, jsIndex_singleton_none_join]
      rfl
    | some j =>
      rw [changeListPosition_some_some]
      show (match listNewPosition
            ((jsIndex (spliceInsert (spliceRemoveOne ([] : List (Option Ent)) j).1 i
                ((spliceRemoveOne ([] : List (Option Ent)) j).2.join)) (i - 1)).join)
            ((jsIndex (spliceInsert (spliceRemoveOne ([] : List (Option Ent)) j).1 i
                ((spliceRemoveOne ([] : List (Option Ent)) j).2.join)) (i + 1)).join) with
        | .error e => Except.error e
        | .ok q =>
            match (spliceRemoveOne ([] : List (Option Ent)) j).2.join with
            | none => Except.error ()
            | some _ => Except.ok q) = _
      rw [spliceRemoveOne_nil]
      show (match listNewPosition
            ((jsIndex (spliceInsert ([] : List (Option Ent)) i none) (i - 1)).join)
            ((jsIndex (spliceInsert ([] : List (Option Ent)) i none) (i + 1)).join) with
        | .error e => Except.error e
        | .ok _ => Except.error ()) = _
      rw [spliceInsert_nil, jsIndex_singleton_none_join, jsIndex_singleton_none_join]
      rfl

/-- Witness for `c3_empty_container`: the concrete empty-board and
empty-list moves at `toIndex = 0`. -/
theorem c3_empty_container_witness :
    changeCardPosition [] ⟨7, 5⟩ none (some 0) = .ok (some 1)
    ∧ changeListPosition [] none (some 0) = .error () := by
  exact ⟨c3_empty_container.1 ⟨7, 5⟩ none 0 (Or.inl rfl), c3_empty_container.2 none 0⟩

/-- A present previous neighbour always lets the list formula succeed. -/
theorem lnp_ok_left (e : Ent) (tn : Option Ent) :
    ∃ q, listNewPosition (some e) tn = .ok q := by
  cases tn with
  | none => exact ⟨_, rfl⟩
  | some n => exact ⟨_, rfl⟩

/-- A present next neighbour always lets the list formula succeed. -/
theorem lnp_ok_right (tp : Option Ent) (e : Ent) :
    ∃ q, listNewPosition tp (some e) = .ok q := by
  cases tp with
  | none => exact ⟨_, rfl⟩
  | some p => exact ⟨_, rfl⟩

/-- Indexing in bounds into a list of defined elements flattens to a
defined element. -/
theorem allSome_jsIndex_join (l : List (Option Ent)) (hall : ∀ o ∈ l, o ≠ none)
    (k : Int) (h0 : 0 ≤ k) (hk : k.toNat < l.length) :
    ∃ e, (jsIndex l k).join = some e := by
  unfold jsIndex
  rw [if_neg (by omega)]
  have hmem : l[k.toNat] ∈ l := List.getElem_mem hk
  cases he : l[k.toNat] with
  | none => exact absurd he (hall _ hmem)
  | some e =>
    refine ⟨e, ?_⟩
    rw [List.getElem?_eq_getElem hk, he]
    rfl

/-- After inserting a defined element anywhere into a non-empty sequence of
defined elements, at least one of the two neighbour lookups succeeds, so
the list-variant position formula does not reach the throwing branch. -/
theorem listNewPosition_insert_ok (A : List (Option Ent)) (mv : Option Ent) (i : Nat)
    (hallA : ∀ o ∈ A, o ≠ none) (hmv : mv ≠ none)
    (h1 : 1 ≤ A.length) (hi : i ≤ A.length) :
    ∃ q, listNewPosition
        ((jsIndex (spliceInsert A ((i : Nat) : Int) mv) (((i : Nat) : Int) - 1)).join)
        ((jsIndex (spliceInsert A ((i : Nat) : Int) mv) (((i : Nat) : Int) + 1)).join)
      = .ok q := by
  have hR2 : spliceInsert A ((i : Nat) : Int) mv = A.take i ++ mv :: A.drop i := by
    unfold spliceInsert
    rw [spliceStart_coe _ _ hi]
  have hlen2 : (A.take i ++ mv :: A.drop i).length = A.length + 1 := by
    simp [List.length_take, List.length_drop]
    omega
  have hall2 : ∀ o ∈ A.take i ++ mv :: A.drop i, o ≠ none := by
    intro o ho
    rcases List.mem_append.mp ho with h | h
    · exact hallA o (List.mem_of_mem_take h)
    · rcases List.mem_cons.mp h with h | h
      · rw [h]; exact hmv
      · exact hallA o (List.mem_of_mem_drop h)
  by_cases hi0 : i = 0
  · obtain ⟨e, he⟩ := allSome_jsIndex_join (A.take i ++ mv :: A.drop i) hall2
      (((i : Nat) : Int) + 1) (by omega) (by rw [hlen2]; omega)
    rw [hR2, he]
    exact lnp_ok_right _ e
  · obtain ⟨e, he⟩ := allSome_jsIndex_join (A.take i ++ mv :: A.drop i) hall2
      (((i : Nat) : Int) - 1) (by omega) (by rw [hlen2]; omega)
    rw [hR2, he]
    exact lnp_ok_left e _

/-- C4 (amended): the card-move handler never signals an error for any
request shape — a null `toIndex` takes the between-lists branch and
computes nothing; and the list-move handler completes without error for
every in-range within-board move on at least two siblings.  (The list
handler can throw — not deliberately signal — a TypeError when both
resolved neighbours are absent or the moved entity is `undefined`: empty
sequences, far out-of-range or null `toIndex`, null or out-of-range
`fromIndex`; see the counterexample.) -/
theorem c4_error_behavior :
    (∀ (rows : List Ent) (c : Ent) (fi ti : Option Int),
      ∃ r, changeCardPosition rows c fi ti = .ok r)
    ∧ (∀ (rows : List Ent) (j i : Nat), 2 ≤ rows.length → j < rows.length →
        i < rows.length →
        ∃ q, changeListPosition rows (some ((j : Nat) : Int)) (some ((i : Nat) : Int))
          = .ok q) := by
  constructor
  · intro rows c fi ti
    cases ti with
    | none => exact ⟨none, by cases fi <;> rfl⟩
    | some i =>
      cases fi with
      | none => exact ⟨_, rfl⟩
      | some j => exact ⟨_, rfl⟩
  · intro rows j i hlen hj hi
    have hmap_all : ∀ o ∈ rows.map some, o ≠ none := by
      intro o ho
      obtain ⟨e, _, rfl⟩ := List.mem_map.mp ho
      simp
    have hs : spliceStart (rows.map some).length ((j : Nat) : Int) = j := by
      rw [List.length_map]
      exact spliceStart_coe _ _ (le_of_lt hj)
    have hmoved : (spliceRemoveOne (rows.map some) ((j : Nat) : Int)).2.join
        = some (rows.get ⟨j, hj⟩) := by
      show ((rows.map some)[spliceStart (rows.map some).length ((j : Nat) : Int)]?).join = _
      rw [hs, List.getElem?_map, List.getElem?_eq_getElem hj]
      rfl
    have hallA : ∀ o ∈ (spliceRemoveOne (rows.map some) ((j : Nat) : Int)).1, o ≠ none := by
      intro o ho
      have ho2 : o ∈ (rows.map some).take (spliceStart (rows.map some).length ((j : Nat) : Int))
          ++ (rows.map some).drop (spliceStart (rows.map some).length ((j : Nat) : Int) + 1) :=
        ho
      rcases List.mem_append.mp ho2 with h | h
      · exact hmap_all o (List.mem_of_mem_take h)
      · exact hmap_all o (List.mem_of_mem_drop h)
    have hlenA : (spliceRemoveOne (rows.map some) ((j : Nat) : Int)).1.length
        = rows.length - 1 := by
      show ((rows.map some).take (spliceStart (rows.map some).length ((j : Nat) : Int))
          ++ (rows.map some).drop (spliceStart (rows.map some).length ((j : Nat) : Int)
              + 1)).length = _
      rw [hs]
      simp [List.length_take, List.length_drop]
      omega
    obtain ⟨q, hq⟩ := listNewPosition_insert_ok
      ((spliceRemoveOne (rows.map some) ((j : Nat) : Int)).1)
      ((spliceRemoveOne (rows.map some) ((j : Nat) : Int)).2.join) i hallA
      (by rw [hmoved]; simp) (by rw [hlenA]; omega) (by rw [hlenA]; omega)
    refine ⟨q, ?_⟩
    rw [changeListPosition_some_some, hq, hmoved]

/-- Witness for `c4_error_behavior`: a null-`toIndex` card request
completes without error, and so does an in-range list move on two
siblings. -/
theorem c4_error_behavior_witness :
    (∃ r, changeCardPosition [] ⟨0, 5⟩ none none = .ok r)
    ∧ (∃ q, changeListPosition [⟨0, 1⟩, ⟨1, 2⟩] (some 0) (some 1) = .ok q) := by
  constructor
  · exact c4_error_behavior.1 [] ⟨0, 5⟩ none none
  · have h := c4_error_behavior.2 [⟨0, 1⟩, ⟨1, 2⟩] 0 1 (by simp) (by simp) (by simp)
    simpa using h
